import Mathlib

/-!
Verification of the core of the cool_rs color library.

The development shallowly embeds the color modules of the repository:

* src/color.rs : the generic RGBA value, the canonical 8-bit color, the
  packed u32 codec (pack / unpack) and the hex-string parser
  (parse_from_hex).
* src/errors.rs : the error values those operations return.
* src/formats.rs : the rgb()/rgba() float-notation format (the RGBA_F
  regular expression, matches and parse, extract_float_in_range).

Machine integers are modelled as Nat with explicit truncation (% 256 for
the u8 casts).  Rust strings are modelled at the byte level (List Nat of
UTF-8 bytes) where byte-index slicing matters, and at the character level
(List Char) for the regex-based float format.  A Rust function that can
panic is modelled with an Option layer: none stands for a panic, some for
a normal return.
-/

/-- Generic 4-channel color, from struct RGBA of src/color.rs.  The
component type there is generic; the canonical color instantiates it at
u8, modelled as Nat with the range invariant carried in hypotheses. -/
structure RGBA (T : Type) where
  r : T
  g : T
  b : T
  a : T
deriving DecidableEq, Repr

/-- Canonical color, from pub type Canonical = RGBA of u8 in src/color.rs. -/
abbrev Canonical := RGBA Nat

/-- BIT_SHIFT_RED of src/color.rs. -/
def BIT_SHIFT_RED : Nat := 4 * 6

/-- BIT_SHIFT_GREEN of src/color.rs. -/
def BIT_SHIFT_GREEN : Nat := 4 * 4

/-- BIT_SHIFT_BLUE of src/color.rs. -/
def BIT_SHIFT_BLUE : Nat := 4 * 2

/-- Canonical::pack of src/color.rs: left-shift each component into its
byte lane and bitwise-or the lanes together.  The u8-to-u32 casts are
lossless, and no shift overflows 32 bits when the components are below
256, so no truncation appears here. -/
def Canonical.pack (c : Canonical) : Nat :=
  c.r <<< BIT_SHIFT_RED ||| c.g <<< BIT_SHIFT_GREEN ||| c.b <<< BIT_SHIFT_BLUE ||| c.a

/-- Canonical::unpack of src/color.rs: shift right, then the as-u8 cast
truncates to the low 8 bits, written here as an explicit % 256. -/
def Canonical.unpack (rgba : Nat) : Canonical :=
  ⟨(rgba >>> BIT_SHIFT_RED) % 256, (rgba >>> BIT_SHIFT_GREEN) % 256,
    (rgba >>> BIT_SHIFT_BLUE) % 256, rgba % 256⟩

/-- The packed value written as a sum of disjoint byte lanes. -/
theorem Canonical.pack_eq (c : Canonical) (hg : c.g < 256)
    (hb : c.b < 256) (ha : c.a < 256) :
    c.pack = 2 ^ 24 * c.r + 2 ^ 16 * c.g + 2 ^ 8 * c.b + c.a := by
  show c.r <<< BIT_SHIFT_RED ||| c.g <<< BIT_SHIFT_GREEN |||
      c.b <<< BIT_SHIFT_BLUE ||| c.a = _
  rw [BIT_SHIFT_RED, BIT_SHIFT_GREEN, BIT_SHIFT_BLUE]
  rw [Nat.shiftLeft_eq, Nat.shiftLeft_eq, Nat.shiftLeft_eq]
  rw [Nat.or_assoc, Nat.or_assoc]
  rw [Nat.mul_comm c.b, ← Nat.mul_add_lt_is_or (show c.a < 2 ^ (4 * 2) by omega)]
  rw [Nat.mul_comm c.g,
    ← Nat.mul_add_lt_is_or (show 2 ^ (4 * 2) * c.b + c.a < 2 ^ (4 * 4) by omega)]
  rw [Nat.mul_comm c.r,
    ← Nat.mul_add_lt_is_or
      (show 2 ^ (4 * 4) * c.g + (2 ^ (4 * 2) * c.b + c.a) < 2 ^ (4 * 6) by norm_num; omega)]
  norm_num
  omega

/-- C1: the packed codec is a round-trip bijection: unpack inverts pack
on every canonical color whose four components are 8-bit values, and pack
inverts unpack on every 32-bit packed value. -/
theorem c1_pack_unpack_bijection :
    (∀ c : Canonical, c.r < 256 → c.g < 256 → c.b < 256 → c.a < 256 →
      Canonical.unpack c.pack = c) ∧
    (∀ p : Nat, p < 2 ^ 32 → (Canonical.unpack p).pack = p) := by
  constructor
  · intro c hr hg hb ha
    obtain ⟨r, g, b, a⟩ := c
    dsimp only at hr hg hb ha
    rw [Canonical.pack_eq _ hg hb ha]
    dsimp only
    show Canonical.unpack _ = _
    unfold Canonical.unpack
    rw [BIT_SHIFT_RED, BIT_SHIFT_GREEN, BIT_SHIFT_BLUE]
    rw [Nat.shiftRight_eq_div_pow, Nat.shiftRight_eq_div_pow, Nat.shiftRight_eq_div_pow]
    simp only [RGBA.mk.injEq]
    norm_num
    refine ⟨?_, ?_, ?_, ?_⟩ <;> omega
  · intro p hp
    have h2 : (Canonical.unpack p).g < 256 := Nat.mod_lt _ (by omega)
    have h3 : (Canonical.unpack p).b < 256 := Nat.mod_lt _ (by omega)
    have h4 : (Canonical.unpack p).a < 256 := Nat.mod_lt _ (by omega)
    rw [Canonical.pack_eq _ h2 h3 h4]
    unfold Canonical.unpack
    rw [BIT_SHIFT_RED, BIT_SHIFT_GREEN, BIT_SHIFT_BLUE]
    rw [Nat.shiftRight_eq_div_pow, Nat.shiftRight_eq_div_pow, Nat.shiftRight_eq_div_pow]
    norm_num
    omega

/-- Witness for C1: the round trip evaluated at the color of the
repository's own pack/unpack test and at its packed literal. -/
theorem c1_pack_unpack_bijection_witness :
    Canonical.unpack (Canonical.pack ⟨123, 234, 213, 132⟩) = ⟨123, 234, 213, 132⟩ ∧
    (Canonical.unpack 2896932011).pack = 2896932011 := by
  refine ⟨c1_pack_unpack_bijection.1 ⟨123, 234, 213, 132⟩ ?_ ?_ ?_ ?_,
    c1_pack_unpack_bijection.2 2896932011 ?_⟩ <;> decide

/-- C2: the packed byte layout puts R in bits 24-31, G in 16-23, B in
8-15 and A in 0-7 (stated as the disjoint-lane sum), and the two literal
examples from the repository's tests evaluate as the spec states. -/
theorem c2_pack_layout :
    (∀ c : Canonical, c.r < 256 → c.g < 256 → c.b < 256 → c.a < 256 →
      c.pack = 2 ^ 24 * c.r + 2 ^ 16 * c.g + 2 ^ 8 * c.b + c.a) ∧
    Canonical.pack ⟨128, 128, 0, 255⟩ = 2155872511 ∧
    Canonical.unpack 2896932011 = ⟨172, 171, 172, 171⟩ := by
  refine ⟨fun c _hr hg hb ha => Canonical.pack_eq c hg hb ha, ?_, ?_⟩ <;> decide

/-- Witness for C2: the layout sum evaluated at the pack test's color. -/
theorem c2_pack_layout_witness :
    Canonical.pack ⟨128, 128, 0, 255⟩ =
      2 ^ 24 * 128 + 2 ^ 16 * 128 + 2 ^ 8 * 0 + 255 := by
  exact c2_pack_layout.1 ⟨128, 128, 0, 255⟩ (by decide) (by decide) (by decide) (by decide)

/-- Kind of core ParseIntError, from Rust's u8::from_str_radix. -/
inductive ParseIntError
  | empty
  | invalidDigit
  | posOverflow
deriving DecidableEq, Repr

/-- ColorError of src/errors.rs.  ParseHexError carries the formatted
message; ParseToIntError carries the integer-parse failure and the
context string (the From impl of src/errors.rs attaches an empty one),
both modelled as UTF-8 byte lists. -/
inductive ColorError
  | ParseHexError (msg : List Nat)
  | ParseToIntError (e : ParseIntError) (ctx : List Nat)
deriving DecidableEq, Repr

/-- UTF-8 bytes of an ASCII string literal. -/
def asciiBytes (s : String) : List Nat := s.toList.map Char.toNat

/-- Whether a byte is an ASCII hexadecimal digit, as accepted by
char::to_digit with radix 16. -/
def isHexDigitByte (b : Nat) : Bool :=
  (48 ≤ b && b ≤ 57) || (97 ≤ b && b ≤ 102) || (65 ≤ b && b ≤ 70)

/-- Numeric value of a hexadecimal digit byte. -/
def hexVal (b : Nat) : Nat :=
  if b ≤ 57 then b - 48 else if b ≤ 70 then b - 55 else b - 87

/-- char::to_digit with radix 16 on a byte. -/
def hexDigit? (b : Nat) : Option Nat :=
  if isHexDigitByte b then some (hexVal b) else none

/-- Digit loop of u8::from_str_radix with radix 16: each byte must be a
hex digit, and the checked multiply and checked add fail with a positive
overflow once the accumulator leaves the u8 range. -/
def parseHexDigitsU8 (acc : Nat) : List Nat → Except ParseIntError Nat
  | [] => .ok acc
  | b :: rest =>
    match hexDigit? b with
    | none => .error .invalidDigit
    | some d =>
      if acc * 16 > 255 then .error .posOverflow
      else if acc * 16 + d > 255 then .error .posOverflow
      else parseHexDigitsU8 (acc * 16 + d) rest

/-- u8::from_str_radix(s, 16) on the bytes of s: empty input fails, a
lone plus sign fails, a leading plus sign is skipped (u8 is unsigned, so
a minus sign falls through to the digit loop and fails there), and the
rest is the digit loop. -/
def fromStrRadix16 (bs : List Nat) : Except ParseIntError Nat :=
  match bs with
  | [] => .error .empty
  | b :: rest =>
    if b = 43 then
      match rest with
      | [] => .error .invalidDigit
      | _ => parseHexDigitsU8 0 rest
    else parseHexDigitsU8 0 bs

/-- str::is_char_boundary on a UTF-8 byte list: index 0 is always a
boundary, an index inside the string is a boundary iff the byte there is
not a continuation byte (0x80..0xBF), and past the end only the length
itself is a boundary. -/
def isCharBoundary (s : List Nat) (i : Nat) : Bool :=
  if i = 0 then true
  else
    match s[i]? with
    | some b => decide (b < 128) || decide (192 ≤ b)
    | none => i == s.length

/-- Byte-range slice s[a..b] of a string (boundary checks are made at
the call sites, where a failed check is a panic). -/
def strSlice (s : List Nat) (a b : Nat) : List Nat := (s.drop a).take (b - a)

/-- The hex_str local of Canonical::parse_from_hex:
input.trim_start_matches('#') removes every leading '#' (byte 35). -/
def hexStr (input : List Nat) : List Nat := input.dropWhile (fun b => b == 35)

/-- Message of the ParseHexError raised by Canonical::parse_from_hex. -/
def hexLengthMsg (input : List Nat) : List Nat :=
  asciiBytes "String argument " ++ input ++
    asciiBytes " does not have the correct length of 6 or 8"

/-- Canonical::parse_from_hex of src/color.rs over UTF-8 bytes.  The
outer Option models panic freedom: none is a panic (a byte-index slice
whose end falls inside a multi-byte character), some is the returned
Result.  Slices are taken left to right exactly as in the source, so an
early integer-parse error returns before a later slice can panic. -/
def Canonical.parse_from_hex (input : List Nat) : Option (Except ColorError Canonical) :=
  if (hexStr input).length = 6 then
    if isCharBoundary (hexStr input) 2 then
      match fromStrRadix16 (strSlice (hexStr input) 0 2) with
      | .error e => some (.error (.ParseToIntError e []))
      | .ok r =>
        if isCharBoundary (hexStr input) 4 then
          match fromStrRadix16 (strSlice (hexStr input) 2 4) with
          | .error e => some (.error (.ParseToIntError e []))
          | .ok g =>
            match fromStrRadix16 (strSlice (hexStr input) 4 6) with
            | .error e => some (.error (.ParseToIntError e []))
            | .ok b => some (.ok ⟨r, g, b, 255⟩)
        else none
    else none
  else if (hexStr input).length = 8 then
    if isCharBoundary (hexStr input) 2 then
      match fromStrRadix16 (strSlice (hexStr input) 0 2) with
      | .error e => some (.error (.ParseToIntError e []))
      | .ok r =>
        if isCharBoundary (hexStr input) 4 then
          match fromStrRadix16 (strSlice (hexStr input) 2 4) with
          | .error e => some (.error (.ParseToIntError e []))
          | .ok g =>
            if isCharBoundary (hexStr input) 6 then
              match fromStrRadix16 (strSlice (hexStr input) 4 6) with
              | .error e => some (.error (.ParseToIntError e []))
              | .ok b =>
                match fromStrRadix16 (strSlice (hexStr input) 6 8) with
                | .error e => some (.error (.ParseToIntError e []))
                | .ok a => some (.ok ⟨r, g, b, a⟩)
            else none
        else none
    else none
  else some (.error (.ParseHexError (hexLengthMsg input)))

/-- Hexadecimal digit bytes are printable ASCII, in particular below 128. -/
theorem isHexDigitByte_range {b : Nat} (h : isHexDigitByte b = true) :
    48 ≤ b ∧ b ≤ 102 := by
  simp only [isHexDigitByte, Bool.or_eq_true, Bool.and_eq_true, decide_eq_true_eq] at h
  omega

/-- Value bound for a hexadecimal digit byte. -/
theorem hexVal_le {b : Nat} (h : isHexDigitByte b = true) : hexVal b ≤ 15 := by
  simp only [isHexDigitByte, Bool.or_eq_true, Bool.and_eq_true, decide_eq_true_eq] at h
  unfold hexVal
  split <;> [omega; split <;> omega]

/-- One step of the from_str_radix digit loop below the overflow bound. -/
theorem parseHexDigitsU8_cons {acc b : Nat} (rest : List Nat)
    (h : isHexDigitByte b = true) (hacc : acc * 16 + hexVal b ≤ 255) :
    parseHexDigitsU8 acc (b :: rest) = parseHexDigitsU8 (acc * 16 + hexVal b) rest := by
  conv_lhs => unfold parseHexDigitsU8
  simp only [hexDigit?, h, if_true]
  rw [if_neg (by omega), if_neg (by omega)]

/-- from_str_radix on exactly two hexadecimal digit bytes. -/
theorem fromStrRadix16_pair {b0 b1 : Nat} (h0 : isHexDigitByte b0 = true)
    (h1 : isHexDigitByte b1 = true) :
    fromStrRadix16 [b0, b1] = .ok (hexVal b0 * 16 + hexVal b1) := by
  have e0 := hexVal_le h0
  have e1 := hexVal_le h1
  have hb0 : ¬b0 = 43 := by have := isHexDigitByte_range h0; omega
  simp only [fromStrRadix16]
  rw [if_neg hb0]
  rw [parseHexDigitsU8_cons _ h0 (by omega)]
  rw [Nat.zero_mul, Nat.zero_add]
  rw [parseHexDigitsU8_cons _ h1 (by omega)]
  rfl

/-- Every index below the length of an ASCII byte string is a character
boundary. -/
theorem isCharBoundary_of_ascii {s : List Nat} {i : Nat}
    (hs : ∀ b ∈ s, b < 128) (hi : i < s.length) :
    isCharBoundary s i = true := by
  unfold isCharBoundary
  split
  · rfl
  · have hg : s[i]? = some s[i] := List.getElem?_eq_getElem hi
    rw [hg]
    have : s[i] < 128 := hs _ (List.getElem_mem hi)
    simp [this]

/-- Bytes surviving the hash strip all come from the input. -/
theorem hexStr_subset {input : List Nat} : ∀ b ∈ hexStr input, b ∈ input :=
  fun _ hb => List.dropWhile_subset _ hb

/-- C3 (code defect): Canonical::parse_from_hex panics on the six-byte
input consisting of the characters described by the bytes of the string
formed of a lowercase a, an e with acute accent, and three zero digits;
the slice taken for the red component ends inside the two-byte character
and trips the str slice boundary check.  On ASCII-only inputs, by
contrast, every byte index is a character boundary and the function
always returns a Result value. -/
theorem c3_parse_from_hex_panic :
    Canonical.parse_from_hex [97, 195, 169, 48, 48, 48] = none ∧
    (∀ input : List Nat, (∀ b ∈ input, b < 128) →
      (Canonical.parse_from_hex input).isSome = true) := by
  constructor
  · rfl
  · intro input h
    have hsub : ∀ b ∈ hexStr input, b < 128 := fun b hb => h b (hexStr_subset b hb)
    unfold Canonical.parse_from_hex
    split
    · rename_i h6
      rw [isCharBoundary_of_ascii hsub (by omega), if_pos rfl]
      split
      · rfl
      · rw [isCharBoundary_of_ascii hsub (by omega), if_pos rfl]
        split
        · rfl
        · split <;> rfl
    · split
      · rename_i h8
        rw [isCharBoundary_of_ascii hsub (by omega), if_pos rfl]
        split
        · rfl
        · rw [isCharBoundary_of_ascii hsub (by omega), if_pos rfl]
          split
          · rfl
          · rw [isCharBoundary_of_ascii hsub (by omega), if_pos rfl]
            split
            · rfl
            · split <;> rfl
      · rfl

/-- Witness for C3: the ASCII branch applied to the repository's own
test input, together with the concrete panic evaluation. -/
theorem c3_parse_from_hex_panic_witness :
    Canonical.parse_from_hex [97, 195, 169, 48, 48, 48] = none ∧
    (Canonical.parse_from_hex (asciiBytes "#00aa11")).isSome = true :=
  ⟨c3_parse_from_hex_panic.1,
    c3_parse_from_hex_panic.2 (asciiBytes "#00aa11") (by decide)⟩

/-- parse_from_hex on a six-hex-digit payload: the three 2-byte groups
are parsed in base 16 and alpha is set to u8::MAX. -/
theorem parse_from_hex_six {input : List Nat} {d0 d1 d2 d3 d4 d5 : Nat}
    (hhex : hexStr input = [d0, d1, d2, d3, d4, d5])
    (h0 : isHexDigitByte d0 = true) (h1 : isHexDigitByte d1 = true)
    (h2 : isHexDigitByte d2 = true) (h3 : isHexDigitByte d3 = true)
    (h4 : isHexDigitByte d4 = true) (h5 : isHexDigitByte d5 = true) :
    Canonical.parse_from_hex input =
      some (.ok ⟨hexVal d0 * 16 + hexVal d1, hexVal d2 * 16 + hexVal d3,
        hexVal d4 * 16 + hexVal d5, 255⟩) := by
  have r0 := isHexDigitByte_range h0
  have r1 := isHexDigitByte_range h1
  have r2 := isHexDigitByte_range h2
  have r3 := isHexDigitByte_range h3
  have r4 := isHexDigitByte_range h4
  have r5 := isHexDigitByte_range h5
  have hall : ∀ b ∈ [d0, d1, d2, d3, d4, d5], b < 128 := by
    intro b hb
    simp only [List.mem_cons, List.not_mem_nil, or_false] at hb
    rcases hb with rfl | rfl | rfl | rfl | rfl | rfl <;> omega
  have hb2 : isCharBoundary [d0, d1, d2, d3, d4, d5] 2 = true :=
    isCharBoundary_of_ascii hall (by simp)
  have hb4 : isCharBoundary [d0, d1, d2, d3, d4, d5] 4 = true :=
    isCharBoundary_of_ascii hall (by simp)
  unfold Canonical.parse_from_hex
  rw [hhex]
  rw [if_pos (by simp)]
  simp only [strSlice, List.drop, List.take, hb2, hb4, eq_self_iff_true, if_true,
    fromStrRadix16_pair h0 h1, fromStrRadix16_pair h2 h3, fromStrRadix16_pair h4 h5]

/-- parse_from_hex on an eight-hex-digit payload: all four components
are parsed from the four 2-byte groups. -/
theorem parse_from_hex_eight {input : List Nat} {d0 d1 d2 d3 d4 d5 d6 d7 : Nat}
    (hhex : hexStr input = [d0, d1, d2, d3, d4, d5, d6, d7])
    (h0 : isHexDigitByte d0 = true) (h1 : isHexDigitByte d1 = true)
    (h2 : isHexDigitByte d2 = true) (h3 : isHexDigitByte d3 = true)
    (h4 : isHexDigitByte d4 = true) (h5 : isHexDigitByte d5 = true)
    (h6 : isHexDigitByte d6 = true) (h7 : isHexDigitByte d7 = true) :
    Canonical.parse_from_hex input =
      some (.ok ⟨hexVal d0 * 16 + hexVal d1, hexVal d2 * 16 + hexVal d3,
        hexVal d4 * 16 + hexVal d5, hexVal d6 * 16 + hexVal d7⟩) := by
  have r0 := isHexDigitByte_range h0
  have r1 := isHexDigitByte_range h1
  have r2 := isHexDigitByte_range h2
  have r3 := isHexDigitByte_range h3
  have r4 := isHexDigitByte_range h4
  have r5 := isHexDigitByte_range h5
  have r6 := isHexDigitByte_range h6
  have r7 := isHexDigitByte_range h7
  have hall : ∀ b ∈ [d0, d1, d2, d3, d4, d5, d6, d7], b < 128 := by
    intro b hb
    simp only [List.mem_cons, List.not_mem_nil, or_false] at hb
    rcases hb with rfl | rfl | rfl | rfl | rfl | rfl | rfl | rfl <;> omega
  have hb2 : isCharBoundary [d0, d1, d2, d3, d4, d5, d6, d7] 2 = true :=
    isCharBoundary_of_ascii hall (by simp)
  have hb4 : isCharBoundary [d0, d1, d2, d3, d4, d5, d6, d7] 4 = true :=
    isCharBoundary_of_ascii hall (by simp)
  have hb6 : isCharBoundary [d0, d1, d2, d3, d4, d5, d6, d7] 6 = true :=
    isCharBoundary_of_ascii hall (by simp)
  unfold Canonical.parse_from_hex
  rw [hhex]
  rw [if_neg (by simp), if_pos (by simp)]
  simp only [strSlice, List.drop, List.take, hb2, hb4, hb6, eq_self_iff_true, if_true,
    fromStrRadix16_pair h0 h1, fromStrRadix16_pair h2 h3, fromStrRadix16_pair h4 h5,
    fromStrRadix16_pair h6 h7]

/-- C4: stripping the hashes, a six-hex-digit input parses its three
2-byte groups in base 16 with alpha 255, an eight-hex-digit input parses
all four groups, upper and lower case digits included, and the two
literal examples evaluate as the spec states. -/
theorem c4_hex_parse_success :
    (∀ (input : List Nat) (d0 d1 d2 d3 d4 d5 : Nat),
      hexStr input = [d0, d1, d2, d3, d4, d5] →
      isHexDigitByte d0 = true → isHexDigitByte d1 = true →
      isHexDigitByte d2 = true → isHexDigitByte d3 = true →
      isHexDigitByte d4 = true → isHexDigitByte d5 = true →
      Canonical.parse_from_hex input =
        some (.ok ⟨hexVal d0 * 16 + hexVal d1, hexVal d2 * 16 + hexVal d3,
          hexVal d4 * 16 + hexVal d5, 255⟩)) ∧
    (∀ (input : List Nat) (d0 d1 d2 d3 d4 d5 d6 d7 : Nat),
      hexStr input = [d0, d1, d2, d3, d4, d5, d6, d7] →
      isHexDigitByte d0 = true → isHexDigitByte d1 = true →
      isHexDigitByte d2 = true → isHexDigitByte d3 = true →
      isHexDigitByte d4 = true → isHexDigitByte d5 = true →
      isHexDigitByte d6 = true → isHexDigitByte d7 = true →
      Canonical.parse_from_hex input =
        some (.ok ⟨hexVal d0 * 16 + hexVal d1, hexVal d2 * 16 + hexVal d3,
          hexVal d4 * 16 + hexVal d5, hexVal d6 * 16 + hexVal d7⟩)) ∧
    Canonical.parse_from_hex (asciiBytes "#00aa11") = some (.ok ⟨0, 170, 17, 255⟩) ∧
    Canonical.parse_from_hex (asciiBytes "#ffffff00") = some (.ok ⟨255, 255, 255, 0⟩) := by
  refine ⟨?_, ?_, rfl, rfl⟩
  · intro input d0 d1 d2 d3 d4 d5 hhex h0 h1 h2 h3 h4 h5
    exact parse_from_hex_six hhex h0 h1 h2 h3 h4 h5
  · intro input d0 d1 d2 d3 d4 d5 d6 d7 hhex h0 h1 h2 h3 h4 h5 h6 h7
    exact parse_from_hex_eight hhex h0 h1 h2 h3 h4 h5 h6 h7

/-- Witness for C4: the general six-digit case applied to the literal
test input with a leading hash and mixed digits. -/
theorem c4_hex_parse_success_witness :
    Canonical.parse_from_hex (asciiBytes "#00Aa11") =
      some (.ok ⟨hexVal 48 * 16 + hexVal 48, hexVal 65 * 16 + hexVal 97,
        hexVal 49 * 16 + hexVal 49, 255⟩) :=
  c4_hex_parse_success.1 (asciiBytes "#00Aa11") 48 48 65 97 49 49 rfl
    rfl rfl rfl rfl rfl rfl

/-- The 2-byte groups that parse_from_hex submits to from_str_radix, for
a payload of the two accepted lengths. -/
def hexGroups (hex : List Nat) : List (List Nat) :=
  if hex.length = 6 then
    [strSlice hex 0 2, strSlice hex 2 4, strSlice hex 4 6]
  else
    [strSlice hex 0 2, strSlice hex 2 4, strSlice hex 4 6, strSlice hex 6 8]

/-- Counterexample for C5: the group of a plus sign and the digit f is
not made of two base-16 digits (a plus sign is not a hex digit), yet
parse_from_hex accepts the input and returns the color 15,0,0,255,
because u8::from_str_radix itself accepts a leading plus sign.  And on
the non-ASCII six-byte input of C3 the function panics (none) instead of
returning the claimed integer-parse error. -/
theorem c5_counterexample_plus_sign :
    Canonical.parse_from_hex (asciiBytes "#+f0000") = some (.ok ⟨15, 0, 0, 255⟩) ∧
    isHexDigitByte 43 = false ∧
    Canonical.parse_from_hex [97, 195, 169, 48, 48, 48] = none := by
  refine ⟨rfl, rfl, rfl⟩

/-- C5 (amended): a stripped payload of length other than 6 and 8 gives
the ParseHexError whose message embeds the offending input; on a payload
of accepted length whose group boundaries are character boundaries, if
from_str_radix rejects some 2-byte group then the result is a
ParseToIntError carrying the underlying failure and the empty context
string; and the two spec examples evaluate accordingly. -/
theorem c5_hex_parse_failures :
    (∀ input : List Nat, (hexStr input).length ≠ 6 → (hexStr input).length ≠ 8 →
      Canonical.parse_from_hex input =
        some (.error (.ParseHexError (hexLengthMsg input)))) ∧
    (∀ input : List Nat, ∃ u v, hexLengthMsg input = u ++ input ++ v) ∧
    (∀ input : List Nat,
      ((hexStr input).length = 6 ∨ (hexStr input).length = 8) →
      isCharBoundary (hexStr input) 2 = true →
      isCharBoundary (hexStr input) 4 = true →
      isCharBoundary (hexStr input) 6 = true →
      (∃ gp ∈ hexGroups (hexStr input), ∃ e, fromStrRadix16 gp = .error e) →
      ∃ e, Canonical.parse_from_hex input =
        some (.error (.ParseToIntError e []))) ∧
    Canonical.parse_from_hex (asciiBytes "#12345") =
      some (.error (.ParseHexError (hexLengthMsg (asciiBytes "#12345")))) ∧
    Canonical.parse_from_hex (asciiBytes "#xz00??_k") =
      some (.error (.ParseToIntError .invalidDigit [])) := by
  refine ⟨?_, ?_, ?_, rfl, rfl⟩
  · intro input h6 h8
    unfold Canonical.parse_from_hex
    rw [if_neg h6, if_neg h8]
  · intro input
    exact ⟨asciiBytes "String argument ",
      asciiBytes " does not have the correct length of 6 or 8", rfl⟩
  · intro input hlen hb2 hb4 hb6 ⟨gp, hgp, e, he⟩
    unfold Canonical.parse_from_hex
    rcases hlen with h6 | h8
    · rw [if_pos h6]
      simp only [hb2, hb4, eq_self_iff_true, if_true]
      rcases hr : fromStrRadix16 (strSlice (hexStr input) 0 2) with er | vr
      · exact ⟨er, rfl⟩
      · rcases hg : fromStrRadix16 (strSlice (hexStr input) 2 4) with eg | vg
        · exact ⟨eg, rfl⟩
        · rcases hb : fromStrRadix16 (strSlice (hexStr input) 4 6) with eb | vb
          · exact ⟨eb, rfl⟩
          · exfalso
            simp only [hexGroups, h6, eq_self_iff_true, if_true,
              List.mem_cons, List.not_mem_nil, or_false] at hgp
            rcases hgp with rfl | rfl | rfl
            · rw [hr] at he; cases he
            · rw [hg] at he; cases he
            · rw [hb] at he; cases he
    · have h6' : (hexStr input).length ≠ 6 := by omega
      rw [if_neg h6', if_pos h8]
      simp only [hb2, hb4, hb6, eq_self_iff_true, if_true]
      rcases hr : fromStrRadix16 (strSlice (hexStr input) 0 2) with er | vr
      · exact ⟨er, rfl⟩
      · rcases hg : fromStrRadix16 (strSlice (hexStr input) 2 4) with eg | vg
        · exact ⟨eg, rfl⟩
        · rcases hb : fromStrRadix16 (strSlice (hexStr input) 4 6) with eb | vb
          · exact ⟨eb, rfl⟩
          · rcases ha : fromStrRadix16 (strSlice (hexStr input) 6 8) with ea | va
            · exact ⟨ea, rfl⟩
            · exfalso
              unfold hexGroups at hgp
              rw [if_neg h6'] at hgp
              simp only [List.mem_cons, List.not_mem_nil, or_false] at hgp
              rcases hgp with rfl | rfl | rfl | rfl
              · rw [hr] at he; cases he
              · rw [hg] at he; cases he
              · rw [hb] at he; cases he
              · rw [ha] at he; cases he

/-- Witness for C5: the amended failure cases applied to the two spec
examples, a wrong length and a non-hex group. -/
theorem c5_hex_parse_failures_witness :
    Canonical.parse_from_hex (asciiBytes "#12345") =
      some (.error (.ParseHexError (hexLengthMsg (asciiBytes "#12345")))) ∧
    (∃ e, Canonical.parse_from_hex (asciiBytes "#xz00??_k") =
      some (.error (.ParseToIntError e []))) := by
  refine ⟨c5_hex_parse_failures.1 (asciiBytes "#12345") (by decide) (by decide),
    c5_hex_parse_failures.2.2.1 (asciiBytes "#xz00??_k") (by decide) (by decide)
      (by decide) (by decide) ?_⟩
  exact ⟨strSlice (hexStr (asciiBytes "#xz00??_k")) 0 2, by decide,
    ParseIntError.invalidDigit, by rfl⟩

/-- Counterexample for C6: an input with two leading hashes does not
fail with the hex-length error; both hashes are stripped and the input
parses successfully. -/
theorem c6_counterexample_double_hash :
    Canonical.parse_from_hex (asciiBytes "##00aa11") = some (.ok ⟨0, 170, 17, 255⟩) := by
  rfl

/-- C6 (amended): trim_start_matches strips every leading hash byte, not
at most one, so a run of hashes in front of a payload never changes the
stripped payload, and the double-hash example parses successfully. -/
theorem c6_strip_all_hashes :
    (∀ (n : Nat) (input : List Nat),
      hexStr (List.replicate n 35 ++ input) = hexStr input) ∧
    Canonical.parse_from_hex (asciiBytes "##00aa11") = some (.ok ⟨0, 170, 17, 255⟩) := by
  constructor
  · intro n input
    induction n with
    | zero => simp
    | succ n ih =>
      simp [hexStr, List.replicate_succ, List.dropWhile_cons, ih]
  · rfl

/-- Unicode white space (the White_Space property), the class behind
str::trim, char::is_whitespace and the regex white-space class. -/
def isWsChar (c : Char) : Bool :=
  c.toNat = 9 || c.toNat = 10 || c.toNat = 11 || c.toNat = 12 || c.toNat = 13 ||
  c.toNat = 32 || c.toNat = 133 || c.toNat = 160 || c.toNat = 5760 ||
  (8192 ≤ c.toNat && c.toNat ≤ 8202) || c.toNat = 8232 || c.toNat = 8233 ||
  c.toNat = 8239 || c.toNat = 8287 || c.toNat = 12288

/-- Digit class of the regex in its default Unicode mode: every Unicode
decimal digit (general category Nd).  The runs below are the Nd
intervals of the Unicode 13.0 character database, the table of the
regex dependency's era. -/
def isDigitNat (n : Nat) : Bool :=
  (0x30 ≤ n && n ≤ 0x39) || (0x660 ≤ n && n ≤ 0x669) ||
  (0x6F0 ≤ n && n ≤ 0x6F9) || (0x7C0 ≤ n && n ≤ 0x7C9) ||
  (0x966 ≤ n && n ≤ 0x96F) || (0x9E6 ≤ n && n ≤ 0x9EF) ||
  (0xA66 ≤ n && n ≤ 0xA6F) || (0xAE6 ≤ n && n ≤ 0xAEF) ||
  (0xB66 ≤ n && n ≤ 0xB6F) || (0xBE6 ≤ n && n ≤ 0xBEF) ||
  (0xC66 ≤ n && n ≤ 0xC6F) || (0xCE6 ≤ n && n ≤ 0xCEF) ||
  (0xD66 ≤ n && n ≤ 0xD6F) || (0xDE6 ≤ n && n ≤ 0xDEF) ||
  (0xE50 ≤ n && n ≤ 0xE59) || (0xED0 ≤ n && n ≤ 0xED9) ||
  (0xF20 ≤ n && n ≤ 0xF29) || (0x1040 ≤ n && n ≤ 0x1049) ||
  (0x1090 ≤ n && n ≤ 0x1099) || (0x17E0 ≤ n && n ≤ 0x17E9) ||
  (0x1810 ≤ n && n ≤ 0x1819) || (0x1946 ≤ n && n ≤ 0x194F) ||
  (0x19D0 ≤ n && n ≤ 0x19D9) || (0x1A80 ≤ n && n ≤ 0x1A89) ||
  (0x1A90 ≤ n && n ≤ 0x1A99) || (0x1B50 ≤ n && n ≤ 0x1B59) ||
  (0x1BB0 ≤ n && n ≤ 0x1BB9) || (0x1C40 ≤ n && n ≤ 0x1C49) ||
  (0x1C50 ≤ n && n ≤ 0x1C59) || (0xA620 ≤ n && n ≤ 0xA629) ||
  (0xA8D0 ≤ n && n ≤ 0xA8D9) || (0xA900 ≤ n && n ≤ 0xA909) ||
  (0xA9D0 ≤ n && n ≤ 0xA9D9) || (0xA9F0 ≤ n && n ≤ 0xA9F9) ||
  (0xAA50 ≤ n && n ≤ 0xAA59) || (0xABF0 ≤ n && n ≤ 0xABF9) ||
  (0xFF10 ≤ n && n ≤ 0xFF19) || (0x104A0 ≤ n && n ≤ 0x104A9) ||
  (0x10D30 ≤ n && n ≤ 0x10D39) || (0x11066 ≤ n && n ≤ 0x1106F) ||
  (0x110F0 ≤ n && n ≤ 0x110F9) || (0x11136 ≤ n && n ≤ 0x1113F) ||
  (0x111D0 ≤ n && n ≤ 0x111D9) || (0x112F0 ≤ n && n ≤ 0x112F9) ||
  (0x11450 ≤ n && n ≤ 0x11459) || (0x114D0 ≤ n && n ≤ 0x114D9) ||
  (0x11650 ≤ n && n ≤ 0x11659) || (0x116C0 ≤ n && n ≤ 0x116C9) ||
  (0x11730 ≤ n && n ≤ 0x11739) || (0x118E0 ≤ n && n ≤ 0x118E9) ||
  (0x11950 ≤ n && n ≤ 0x11959) || (0x11C50 ≤ n && n ≤ 0x11C59) ||
  (0x11D50 ≤ n && n ≤ 0x11D59) || (0x11DA0 ≤ n && n ≤ 0x11DA9) ||
  (0x16A60 ≤ n && n ≤ 0x16A69) || (0x16B50 ≤ n && n ≤ 0x16B59) ||
  (0x1D7CE ≤ n && n ≤ 0x1D7FF) || (0x1E140 ≤ n && n ≤ 0x1E149) ||
  (0x1E2F0 ≤ n && n ≤ 0x1E2F9) || (0x1E950 ≤ n && n ≤ 0x1E959) ||
  (0x1FBF0 ≤ n && n ≤ 0x1FBF9)

/-- Digit class of the regex on characters. -/
def isDigitChar (c : Char) : Bool := isDigitNat c.toNat

/-- ASCII decimal digit: the only digits Rust's numeric string parsers
(char::to_digit and f32 parsing) accept. -/
def isAsciiDigit (c : Char) : Bool := 48 ≤ c.toNat && c.toNat ≤ 57

/-- str::trim: remove white space from both ends. -/
def rustTrim (s : List Char) : List Char :=
  ((s.dropWhile isWsChar).reverse.dropWhile isWsChar).reverse

/-- The four named capture groups of RGBA_F_REGEX in src/formats.rs. -/
structure FloatCaps where
  r : List Char
  g : List Char
  b : List Char
  a : Option (List Char)
deriving DecidableEq, Repr

/-- Greedy consumption of a white-space run, the regex \s-star. -/
def skipWs (xs : List Char) : List Char := xs.dropWhile isWsChar

/-- One color component of RGBA_F_REGEX: a 0 or 1, a dot, then one or
more digits, consumed greedily; returns the captured text and the rest. -/
def matchComponent : List Char → Option (List Char × List Char)
  | c :: d :: rest =>
    if (c = '0' ∨ c = '1') ∧ d = '.' then
      if (rest.takeWhile isDigitChar).isEmpty then none
      else some (c :: d :: rest.takeWhile isDigitChar, rest.dropWhile isDigitChar)
    else none
  | _ => none

/-- Require one literal character. -/
def expectChar (c : Char) : List Char → Option (List Char)
  | x :: rest => if x = c then some rest else none
  | [] => none

/-- The case-insensitive rgb keyword with its optional a: the a branch
of the regex is taken exactly when the fourth character is an a (when it
is not, the opening parenthesis is demanded right after the b, which is
what backtracking over the optional a amounts to). -/
def matchKeyword : List Char → Option (List Char)
  | k1 :: k2 :: k3 :: rest =>
    if (k1 = 'r' ∨ k1 = 'R') ∧ (k2 = 'g' ∨ k2 = 'G') ∧ (k3 = 'b' ∨ k3 = 'B') then
      match rest with
      | k4 :: rest2 => if k4 = 'a' ∨ k4 = 'A' then some rest2 else some rest
      | [] => some rest
    else none
  | _ => none

/-- Matching RGBA_F_REGEX at the start of a string.  The pattern is
deterministic on success: every white-space and digit run is consumed
greedily and is followed by a character outside its class, and the
optional alpha group is taken exactly when a comma follows the third
component, so this matcher finds a match at this position if and only if
the backtracking regex engine does. -/
def matchAtF (xs : List Char) : Option (FloatCaps × List Char) :=
  match matchKeyword xs with
  | none => none
  | some rest1 =>
    match expectChar '(' rest1 with
    | none => none
    | some rest2 =>
      match matchComponent (skipWs rest2) with
      | none => none
      | some (rcap, rest3) =>
        match expectChar ',' (skipWs rest3) with
        | none => none
        | some rest4 =>
          match matchComponent (skipWs rest4) with
          | none => none
          | some (gcap, rest5) =>
            match expectChar ',' (skipWs rest5) with
            | none => none
            | some rest6 =>
              match matchComponent (skipWs rest6) with
              | none => none
              | some (bcap, rest7) =>
                match skipWs rest7 with
                | [] => none
                | x :: rest8 =>
                  if x = ',' then
                    match matchComponent (skipWs rest8) with
                    | none => none
                    | some (acap, rest9) =>
                      match expectChar ')' (skipWs rest9) with
                      | none => none
                      | some rest10 => some (⟨rcap, gcap, bcap, some acap⟩, rest10)
                  else
                    match expectChar ')' (x :: rest8) with
                    | none => none
                    | some rest9 => some (⟨rcap, gcap, bcap, none⟩, rest9)

/-- Regex::is_match of the unanchored RGBA_F_REGEX: a match may start
at any position. -/
def regexIsMatchF : List Char → Bool
  | [] => (matchAtF []).isSome
  | c :: rest => (matchAtF (c :: rest)).isSome || regexIsMatchF rest

/-- Regex::captures of RGBA_F_REGEX: the capture groups of the leftmost
match. -/
def regexCapturesF : List Char → Option FloatCaps
  | [] => (matchAtF []).map Prod.fst
  | c :: rest =>
    match matchAtF (c :: rest) with
    | some p => some p.1
    | none => regexCapturesF rest

/-- ColorFormats of src/formats.rs. -/
inductive ColorFormats
  | RGBu8
  | RGBf
  | Hex
deriving DecidableEq, Repr

/-- The message strings put into ParseFormatError by src/formats.rs and
src/errors.rs, one constructor per distinct format! template (the
renderings are pairwise distinct, so the constructors model the strings
faithfully). -/
inductive FmtMsg
  | raw (s : List Char)
  | floatParse (s : List Char)
  | range (f : ℚ)
  | missing
deriving DecidableEq, Repr

/-- ParseFormatError of src/errors.rs: the attempted format and the
message. -/
structure ParseFormatError where
  fmt : ColorFormats
  msg : FmtMsg
deriving DecidableEq, Repr

/-- Value of a nonempty all-ASCII-digit run (Rust's numeric parsers
reject every non-ASCII digit). -/
def decDigitsVal? (ds : List Char) : Option Nat :=
  if ds.isEmpty || !ds.all isAsciiDigit then none
  else some (ds.foldl (fun acc c => acc * 10 + (c.toNat - 48)) 0)

/-- Round a rational to the nearest integer with ties to even: the
rounding of IEEE-754 binary arithmetic. -/
def rne (x : ℚ) : ℤ :=
  if x - ⌊x⌋ < 1/2 then ⌊x⌋
  else if 1/2 < x - ⌊x⌋ then ⌊x⌋ + 1
  else if ⌊x⌋ % 2 = 0 then ⌊x⌋ else ⌊x⌋ + 1

/-- The f32 value nearest a positive rational: the significand is the
input scaled into the binade of 2 to the 23 and rounded to nearest with
ties to even, where the scale exponent is floored at the subnormal
limit of -149.  Nonpositive inputs map to zero (captured components of
the regex are nonnegative and far below the overflow threshold of f32,
so neither sign nor infinity handling is ever exercised). -/
def fl (q : ℚ) : ℚ :=
  if q ≤ 0 then 0
  else
    (rne (q * 2 ^ (-max (Int.log 2 q - 23) (-149))) : ℚ) *
      2 ^ max (Int.log 2 q - 23) (-149)

/-- str::parse of f32 on a captured component: an ASCII-digit integer
part, an optional dot and an ASCII-digit fractional part, whose exact
decimal value is rounded to the nearest representable f32 (ties to
even). -/
def parseDecimal (s : List Char) : Option ℚ :=
  match s.dropWhile (fun c => !(c = '.')) with
  | [] => (decDigitsVal? s).map (fun n => fl (n : ℚ))
  | _ :: fp =>
    match decDigitsVal? (s.takeWhile (fun c => !(c = '.'))), decDigitsVal? fp with
    | some n, some m => some (fl ((n : ℚ) + (m : ℚ) / (10 : ℚ) ^ fp.length))
    | _, _ => none

/-- extract_float_in_range of src/formats.rs: a missing capture is an
error, a capture that does not parse as a float is an error (via the
From impl for ParseFloatError), and a parsed value is accepted exactly
when it lies in the inclusive range 0 to 1. -/
def extract_float_in_range (matchOpt : Option (List Char)) : Except ParseFormatError ℚ :=
  match matchOpt with
  | some mat =>
    match parseDecimal mat with
    | none => .error ⟨.RGBf, .floatParse mat⟩
    | some f =>
      if 0 ≤ f ∧ f ≤ 1 then .ok f
      else .error ⟨.RGBf, .range f⟩
  | none => .error ⟨.RGBf, .missing⟩

/-- Modelled from the spec: Canonical::from_f is called by src/formats.rs
but its definition is not among the provided sources; the spec prescribes
a linear float-to-u8 scaling with 0.0 to 0 and 1.0 to 255.  Components
are exact rationals here and the scaling rounds to nearest. -/
def scale_f (q : ℚ) : Nat := (round (q * 255)).toNat

/-- Modelled from the spec: Canonical::from_f builds the canonical color
by scaling each of the four float components into the 8-bit space. -/
def Canonical.from_f (r g b a : ℚ) : Canonical :=
  ⟨scale_f r, scale_f g, scale_f b, scale_f a⟩

/-- RGBFloatFormat::matches of src/formats.rs: run the unanchored regex
over the trimmed input. -/
def RGBFloatFormat.matches (color_str : List Char) : Bool :=
  regexIsMatchF (rustTrim color_str)

/-- RGBFloatFormat::parse of src/formats.rs: capture on the untrimmed
input, fail with the raw input on no match, then extract the three
mandatory components and the optional alpha (defaulting to 1.0), and
hand the four floats to Canonical::from_f. -/
def RGBFloatFormat.parse (color_str : List Char) : Except ParseFormatError Canonical :=
  match regexCapturesF color_str with
  | none => .error ⟨.RGBf, .raw color_str⟩
  | some caps =>
    match extract_float_in_range (some caps.r) with
    | .error e => .error e
    | .ok r =>
      match extract_float_in_range (some caps.g) with
      | .error e => .error e
      | .ok g =>
        match extract_float_in_range (some caps.b) with
        | .error e => .error e
        | .ok b =>
          match (match caps.a with
            | some m => extract_float_in_range (some m)
            | none => .ok 1) with
          | .error e => .error e
          | .ok a => .ok (Canonical.from_f r g b a)

/-- Shape of the keyword part of RGBA_F_REGEX. -/
def KeywordShape (kw : List Char) : Prop :=
  ∃ k1 k2 k3, (kw = [k1, k2, k3] ∨ ∃ k4, kw = [k1, k2, k3, k4] ∧ (k4 = 'a' ∨ k4 = 'A')) ∧
    (k1 = 'r' ∨ k1 = 'R') ∧ (k2 = 'g' ∨ k2 = 'G') ∧ (k3 = 'b' ∨ k3 = 'B')

/-- Shape of one captured component: 0 or 1, a dot, then at least one
digit. -/
def ComponentShape (cap : List Char) : Prop :=
  ∃ c ds, cap = c :: '.' :: ds ∧ (c = '0' ∨ c = '1') ∧ ds ≠ [] ∧
    ∀ x ∈ ds, isDigitChar x = true

/-- A run of white space. -/
def AllWs (w : List Char) : Prop := ∀ c ∈ w, isWsChar c = true

/-- A string of exactly the shape recognized by RGBA_F_REGEX, together
with its captures: keyword, parenthesis, three comma-separated
components with white space, an optional alpha group, and the closing
parenthesis. -/
def GrammarChunk (chunk : List Char) (caps : FloatCaps) : Prop :=
  ∃ kw w1 w2 w3 w4 w5 w6 tail,
    KeywordShape kw ∧ AllWs w1 ∧ AllWs w2 ∧ AllWs w3 ∧ AllWs w4 ∧ AllWs w5 ∧ AllWs w6 ∧
    ComponentShape caps.r ∧ ComponentShape caps.g ∧ ComponentShape caps.b ∧
    ((caps.a = none ∧ tail = []) ∨
      (∃ acap w7 w8, caps.a = some acap ∧ ComponentShape acap ∧ AllWs w7 ∧ AllWs w8 ∧
        tail = ',' :: (w7 ++ (acap ++ w8)))) ∧
    chunk = kw ++ '(' :: (w1 ++ (caps.r ++ (w2 ++ ',' ::
      (w3 ++ (caps.g ++ (w4 ++ ',' ::
        (w5 ++ (caps.b ++ (w6 ++ (tail ++ [')']))))))))))

/-- White space is never a digit: the White_Space codepoints avoid every
Nd run. -/
theorem ws_not_digit {c : Char} (h : isWsChar c = true) : isDigitChar c = false := by
  simp only [isWsChar, Bool.or_eq_true, decide_eq_true_eq, Bool.and_eq_true] at h
  by_contra hd
  rw [Bool.not_eq_false] at hd
  simp only [isDigitChar, isDigitNat, Bool.or_eq_true, Bool.and_eq_true,
    decide_eq_true_eq] at hd
  omega

/-- skipWs jumps over a white-space run and stops at the first
non-white-space character. -/
theorem skipWs_run {w : List Char} (hw : AllWs w) {x : Char} (hx : isWsChar x = false)
    (t : List Char) : skipWs (w ++ x :: t) = x :: t := by
  unfold skipWs
  rw [List.dropWhile_append_of_pos hw, List.dropWhile_cons]
  simp [hx]

/-- A list whose head is not a digit has an empty digit prefix. -/
theorem takeWhile_digit_nil {w : List Char} (hw : AllWs w) {x : Char}
    (hx : isDigitChar x = false) (t : List Char) :
    ((w ++ x :: t).takeWhile isDigitChar) = [] := by
  cases w with
  | nil => exact List.takeWhile_cons_of_neg (by simp [hx])
  | cons c w' =>
    have : isDigitChar c = false := ws_not_digit (hw c (by simp))
    exact List.takeWhile_cons_of_neg (by simp [this])

/-- Companion of takeWhile_digit_nil for the dropped part. -/
theorem dropWhile_digit_self {w : List Char} (hw : AllWs w) {x : Char}
    (hx : isDigitChar x = false) (t : List Char) :
    ((w ++ x :: t).dropWhile isDigitChar) = w ++ x :: t := by
  cases w with
  | nil => rw [List.nil_append, List.dropWhile_cons]; simp [hx]
  | cons c w' =>
    have : isDigitChar c = false := ws_not_digit (hw c (by simp))
    rw [List.cons_append, List.dropWhile_cons]
    simp [this]

/-- The keyword matcher accepts every keyword shape when the opening
parenthesis follows (the optional a of the regex never eats it). -/
theorem matchKeyword_complete {kw : List Char} (h : KeywordShape kw) (t : List Char) :
    matchKeyword (kw ++ '(' :: t) = some ('(' :: t) := by
  obtain ⟨k1, k2, k3, hshape, h1, h2, h3⟩ := h
  rcases hshape with rfl | ⟨k4, rfl, h4⟩
  · show matchKeyword (k1 :: k2 :: k3 :: '(' :: t) = _
    simp only [matchKeyword]
    rw [if_pos ⟨h1, h2, h3⟩]
    have : ¬('(' = 'a' ∨ '(' = 'A') := by decide
    simp [this]
  · show matchKeyword (k1 :: k2 :: k3 :: k4 :: '(' :: t) = _
    simp only [matchKeyword]
    rw [if_pos ⟨h1, h2, h3⟩]
    simp [h4]

/-- The component matcher consumes exactly a component-shaped capture
when what follows starts with white space or another delimiter. -/
theorem matchComponent_complete {cap : List Char} (h : ComponentShape cap)
    {w : List Char} (hw : AllWs w) {x : Char} (hx : isDigitChar x = false)
    (t : List Char) :
    matchComponent (cap ++ (w ++ x :: t)) = some (cap, w ++ x :: t) := by
  obtain ⟨c, ds, rfl, hc, hne, hds⟩ := h
  show matchComponent (c :: '.' :: (ds ++ (w ++ x :: t))) = _
  simp only [matchComponent]
  rw [if_pos ⟨hc, trivial⟩]
  rw [List.takeWhile_append_of_pos hds, List.dropWhile_append_of_pos hds]
  rw [takeWhile_digit_nil hw hx, dropWhile_digit_self hw hx]
  simp [List.isEmpty_iff, hne]

/-- Characters that the grammar places after a component or a
white-space run. -/
theorem delim_not_ws_digit :
    isWsChar ',' = false ∧ isWsChar ')' = false ∧ isDigitChar ',' = false ∧
    isDigitChar ')' = false ∧ isWsChar '0' = false ∧ isWsChar '1' = false := by
  decide

/-- Heads of component-shaped captures are 0 or 1, hence not white
space. -/
theorem component_head_not_ws {cap : List Char} (h : ComponentShape cap) :
    ∃ c t, cap = c :: t ∧ isWsChar c = false := by
  obtain ⟨c, ds, rfl, hc, -, -⟩ := h
  refine ⟨c, '.' :: ds, rfl, ?_⟩
  rcases hc with rfl | rfl <;> decide

/-- expectChar accepts its own character. -/
theorem expectChar_self (c : Char) (t : List Char) : expectChar c (c :: t) = some t := by
  simp [expectChar]

/-- matchComponent_complete restated on the cons-normalized list form in
which it is applied. -/
theorem matchComponent_complete2 {c : Char} {ds : List Char} (hc : c = '0' ∨ c = '1')
    (hne : ds ≠ []) (hds : ∀ x ∈ ds, isDigitChar x = true)
    {w : List Char} (hw : AllWs w) {x : Char} (hx : isDigitChar x = false)
    (t : List Char) :
    matchComponent (c :: '.' :: (ds ++ (w ++ x :: t))) = some (c :: '.' :: ds, w ++ x :: t) :=
  matchComponent_complete ⟨c, ds, rfl, hc, hne, hds⟩ hw hx t

/-- Completeness of the matcher: a grammar-shaped chunk is matched at
its start whatever follows it, with exactly its captures, and the match
consumes exactly the chunk. -/
theorem matchAtF_complete {chunk : List Char} {caps : FloatCaps}
    (h : GrammarChunk chunk caps) (rest : List Char) :
    matchAtF (chunk ++ rest) = some (caps, rest) := by
  obtain ⟨capr, capg, capb, capa⟩ := caps
  obtain ⟨kw, w1, w2, w3, w4, w5, w6, tail, hkw, hw1, hw2, hw3, hw4, hw5, hw6,
    hr, hg, hb, htail, hchunk⟩ := h
  dsimp only at hr hg hb htail hchunk
  obtain ⟨c1, ds1, he1, hc1, hne1, hds1⟩ := hr
  obtain ⟨c2, ds2, he2, hc2, hne2, hds2⟩ := hg
  obtain ⟨c3, ds3, he3, hc3, hne3, hds3⟩ := hb
  subst he1
  subst he2
  subst he3
  have hnw1 : isWsChar c1 = false := by rcases hc1 with rfl | rfl <;> decide
  have hnw2 : isWsChar c2 = false := by rcases hc2 with rfl | rfl <;> decide
  have hnw3 : isWsChar c3 = false := by rcases hc3 with rfl | rfl <;> decide
  have hcd : isDigitChar ',' = false := by decide
  have hcw : isWsChar ',' = false := by decide
  have hpd : isDigitChar ')' = false := by decide
  have hpw : isWsChar ')' = false := by decide
  have hpc : (')' = ',') = False := by simp
  rcases htail with ⟨rfl, rfl⟩ | ⟨acap, w7, w8, rfl, hacap, hw7, hw8, rfl⟩
  · subst hchunk
    simp only [List.append_assoc, List.cons_append, List.nil_append]
    simp only [matchAtF, matchKeyword_complete hkw, expectChar_self,
      skipWs_run hw1 hnw1, matchComponent_complete2 hc1 hne1 hds1 hw2 hcd,
      skipWs_run hw2 hcw, skipWs_run hw3 hnw2,
      matchComponent_complete2 hc2 hne2 hds2 hw4 hcd,
      skipWs_run hw4 hcw, skipWs_run hw5 hnw3,
      matchComponent_complete2 hc3 hne3 hds3 hw6 hpd,
      skipWs_run hw6 hpw, hpc, if_false]
  · obtain ⟨c4, ds4, he4, hc4, hne4, hds4⟩ := hacap
    subst he4
    subst hchunk
    have hnw4 : isWsChar c4 = false := by rcases hc4 with rfl | rfl <;> decide
    simp only [List.append_assoc, List.cons_append, List.nil_append]
    simp only [matchAtF, matchKeyword_complete hkw, expectChar_self,
      skipWs_run hw1 hnw1, matchComponent_complete2 hc1 hne1 hds1 hw2 hcd,
      skipWs_run hw2 hcw, skipWs_run hw3 hnw2,
      matchComponent_complete2 hc2 hne2 hds2 hw4 hcd,
      skipWs_run hw4 hcw, skipWs_run hw5 hnw3,
      matchComponent_complete2 hc3 hne3 hds3 hw6 hcd,
      skipWs_run hw6 hcw, eq_self_iff_true, if_true,
      skipWs_run hw7 hnw4, matchComponent_complete2 hc4 hne4 hds4 hw8 hpd,
      skipWs_run hw8 hpw]

/-- A successful keyword match consumed a keyword-shaped prefix. -/
theorem matchKeyword_sound {xs r1 : List Char} (h : matchKeyword xs = some r1) :
    ∃ kw, xs = kw ++ r1 ∧ KeywordShape kw := by
  cases xs with
  | nil => simp [matchKeyword] at h
  | cons k1 t1 =>
    cases t1 with
    | nil => simp [matchKeyword] at h
    | cons k2 t2 =>
      cases t2 with
      | nil => simp [matchKeyword] at h
      | cons k3 rest =>
        cases rest with
        | nil =>
          simp only [matchKeyword] at h
          split at h
          · rename_i hcond
            obtain ⟨h1, h2, h3⟩ := hcond
            injection h with h'
            subst h'
            exact ⟨[k1, k2, k3], by simp, k1, k2, k3, Or.inl rfl, h1, h2, h3⟩
          · cases h
        | cons k4 rest2 =>
          simp only [matchKeyword] at h
          split at h
          · rename_i hcond
            obtain ⟨h1, h2, h3⟩ := hcond
            split at h
            · rename_i h4
              injection h with h'
              subst h'
              exact ⟨[k1, k2, k3, k4], by simp, k1, k2, k3,
                Or.inr ⟨k4, rfl, h4⟩, h1, h2, h3⟩
            · injection h with h'
              subst h'
              exact ⟨[k1, k2, k3], by simp, k1, k2, k3, Or.inl rfl, h1, h2, h3⟩
          · cases h

/-- A successful expectChar consumed exactly its character. -/
theorem expectChar_sound {c : Char} {xs r : List Char} (h : expectChar c xs = some r) :
    xs = c :: r := by
  cases xs with
  | nil => simp [expectChar] at h
  | cons x t =>
    simp only [expectChar] at h
    split at h
    · rename_i hx
      injection h with h'
      subst h'
      subst hx
      rfl
    · cases h

/-- skipWs removes a white-space prefix. -/
theorem skipWs_sound (xs : List Char) : ∃ w, xs = w ++ skipWs xs ∧ AllWs w := by
  refine ⟨xs.takeWhile isWsChar, ?_, ?_⟩
  · rw [skipWs]
    exact (List.takeWhile_append_dropWhile _ _).symm
  · intro c hc
    exact List.mem_takeWhile_imp hc

/-- A successful component match consumed a component-shaped capture. -/
theorem matchComponent_sound {xs cap r : List Char}
    (h : matchComponent xs = some (cap, r)) :
    xs = cap ++ r ∧ ComponentShape cap := by
  cases xs with
  | nil => simp [matchComponent] at h
  | cons c t =>
    cases t with
    | nil => simp [matchComponent] at h
    | cons d rest =>
      simp only [matchComponent] at h
      split at h
      · rename_i hcond
        obtain ⟨hc, hd⟩ := hcond
        split at h
        · cases h
        · rename_i hne
          injection h with h'
          rw [Prod.mk.injEq] at h'
          obtain ⟨hcap, hrest⟩ := h'
          subst hcap
          subst hrest
          subst hd
          refine ⟨?_, c, rest.takeWhile isDigitChar, rfl, hc, ?_, ?_⟩
          · simp [List.takeWhile_append_dropWhile]
          · intro hnil
            rw [hnil] at hne
            simp at hne
          · intro x hx
            exact List.mem_takeWhile_imp hx
      · cases h

/-- Soundness of the matcher: a successful match at the start of a
string consumed exactly a grammar-shaped chunk carrying its captures. -/
theorem matchAtF_sound {xs : List Char} {caps : FloatCaps} {rest : List Char}
    (h : matchAtF xs = some (caps, rest)) :
    ∃ chunk, xs = chunk ++ rest ∧ GrammarChunk chunk caps := by
  unfold matchAtF at h
  split at h
  · cases h
  · rename_i rest1 hk
    split at h
    · cases h
    · rename_i rest2 hp
      split at h
      · cases h
      · rename_i rcap rest3 hc1
        split at h
        · cases h
        · rename_i rest4 hcm1
          split at h
          · cases h
          · rename_i gcap rest5 hc2
            split at h
            · cases h
            · rename_i rest6 hcm2
              split at h
              · cases h
              · rename_i bcap rest7 hc3
                split at h
                · cases h
                · rename_i x rest8 hsw7
                  obtain ⟨kw, hxs1, hkw⟩ := matchKeyword_sound hk
                  have hr1 := expectChar_sound hp
                  obtain ⟨w1, hw1eq, hw1⟩ := skipWs_sound rest2
                  obtain ⟨hsw2, hshr⟩ := matchComponent_sound hc1
                  obtain ⟨w2, hw2eq, hw2⟩ := skipWs_sound rest3
                  have hsw3 := expectChar_sound hcm1
                  obtain ⟨w3, hw3eq, hw3⟩ := skipWs_sound rest4
                  obtain ⟨hsw4, hshg⟩ := matchComponent_sound hc2
                  obtain ⟨w4, hw4eq, hw4⟩ := skipWs_sound rest5
                  have hsw5 := expectChar_sound hcm2
                  obtain ⟨w5, hw5eq, hw5⟩ := skipWs_sound rest6
                  obtain ⟨hsw6, hshb⟩ := matchComponent_sound hc3
                  obtain ⟨w6, hw6eq, hw6⟩ := skipWs_sound rest7
                  split at h
                  · rename_i hxc
                    subst hxc
                    split at h
                    · cases h
                    · rename_i acap rest9 ha1
                      split at h
                      · cases h
                      · rename_i rest10 hp2
                        injection h with h'
                        rw [Prod.mk.injEq] at h'
                        obtain ⟨hcaps, hrrest⟩ := h'
                        subst hcaps
                        subst hrrest
                        obtain ⟨w7, hw7eq, hw7⟩ := skipWs_sound rest8
                        obtain ⟨hsw8, hsha⟩ := matchComponent_sound ha1
                        obtain ⟨w8, hw8eq, hw8⟩ := skipWs_sound rest9
                        have hsw9 := expectChar_sound hp2
                        refine ⟨kw ++ '(' :: (w1 ++ (rcap ++ (w2 ++ ',' ::
                          (w3 ++ (gcap ++ (w4 ++ ',' :: (w5 ++ (bcap ++ (w6 ++
                          ((',' :: (w7 ++ (acap ++ w8))) ++ [')'])))))))))), ?_, ?_⟩
                        · rw [hxs1, hr1, hw1eq, hsw2, hw2eq, hsw3, hw3eq, hsw4,
                            hw4eq, hsw5, hw5eq, hsw6, hw6eq, hsw7, hw7eq, hsw8,
                            hw8eq, hsw9]
                          simp [List.append_assoc]
                        · exact ⟨kw, w1, w2, w3, w4, w5, w6,
                            ',' :: (w7 ++ (acap ++ w8)), hkw,
                            hw1, hw2, hw3, hw4, hw5, hw6, hshr, hshg, hshb,
                            Or.inr ⟨acap, w7, w8, rfl, hsha, hw7, hw8, rfl⟩, rfl⟩
                  · rename_i hxc
                    split at h
                    · cases h
                    · rename_i rest9 hp2
                      injection h with h'
                      rw [Prod.mk.injEq] at h'
                      obtain ⟨hcaps, hrrest⟩ := h'
                      subst hcaps
                      subst hrrest
                      have hx9 := expectChar_sound hp2
                      injection hx9 with hxp hr89
                      subst hxp
                      subst hr89
                      refine ⟨kw ++ '(' :: (w1 ++ (rcap ++ (w2 ++ ',' ::
                        (w3 ++ (gcap ++ (w4 ++ ',' :: (w5 ++ (bcap ++ (w6 ++
                        ([] ++ [')'])))))))))), ?_, ?_⟩
                      · rw [hxs1, hr1, hw1eq, hsw2, hw2eq, hsw3, hw3eq, hsw4,
                          hw4eq, hsw5, hw5eq, hsw6, hw6eq, hsw7]
                        simp [List.append_assoc]
                      · exact ⟨kw, w1, w2, w3, w4, w5, w6, [], hkw,
                          hw1, hw2, hw3, hw4, hw5, hw6, hshr, hshg, hshb,
                          Or.inl ⟨rfl, rfl⟩, rfl⟩

/-- A grammar chunk starts with the r of its keyword, which is not white
space. -/
theorem GrammarChunk_head {chunk : List Char} {caps : FloatCaps}
    (h : GrammarChunk chunk caps) :
    ∃ k t, chunk = k :: t ∧ isWsChar k = false := by
  obtain ⟨kw, w1, w2, w3, w4, w5, w6, tail, hkw, -, -, -, -, -, -, -, -, -, -, hchunk⟩ := h
  obtain ⟨k1, k2, k3, hsh, h1, h2, h3⟩ := hkw
  have hk1 : isWsChar k1 = false := by rcases h1 with rfl | rfl <;> decide
  rcases hsh with rfl | ⟨k4, rfl, -⟩
  · subst hchunk
    exact ⟨k1, _, rfl, hk1⟩
  · subst hchunk
    exact ⟨k1, _, rfl, hk1⟩

/-- A grammar chunk ends with its closing parenthesis. -/
theorem GrammarChunk_last {chunk : List Char} {caps : FloatCaps}
    (h : GrammarChunk chunk caps) :
    ∃ init, chunk = init ++ [')'] := by
  obtain ⟨kw, w1, w2, w3, w4, w5, w6, tail, -, -, -, -, -, -, -, -, -, -, -, hchunk⟩ := h
  exact ⟨kw ++ '(' :: (w1 ++ (caps.r ++ (w2 ++ ',' :: (w3 ++ (caps.g ++ (w4 ++ ',' ::
    (w5 ++ (caps.b ++ (w6 ++ tail))))))))), by simp [hchunk]⟩

/-- A match somewhere in the string yields a three-way decomposition. -/
theorem regexIsMatchF_decomp {s : List Char} (h : regexIsMatchF s = true) :
    ∃ pre chunk post caps, s = pre ++ (chunk ++ post) ∧ GrammarChunk chunk caps := by
  induction s with
  | nil =>
    rw [show regexIsMatchF [] = false from rfl] at h
    cases h
  | cons c t ih =>
    rw [regexIsMatchF, Bool.or_eq_true] at h
    rcases h with h | h
    · rw [Option.isSome_iff_exists] at h
      obtain ⟨⟨caps, rest⟩, hm⟩ := h
      obtain ⟨chunk, heq, hg⟩ := matchAtF_sound hm
      exact ⟨[], chunk, rest, caps, by simp [heq], hg⟩
    · obtain ⟨pre, chunk, post, caps, heq, hg⟩ := ih h
      exact ⟨c :: pre, chunk, post, caps, by simp [heq], hg⟩

/-- Conversely, a grammar chunk anywhere inside the string makes the
unanchored regex match. -/
theorem regexIsMatchF_of_decomp {pre chunk post : List Char} {caps : FloatCaps}
    (hg : GrammarChunk chunk caps) :
    regexIsMatchF (pre ++ (chunk ++ post)) = true := by
  induction pre with
  | nil =>
    obtain ⟨k, t, hck, -⟩ := GrammarChunk_head hg
    have hm := matchAtF_complete hg post
    subst hck
    rw [List.nil_append, List.cons_append, regexIsMatchF, ← List.cons_append, hm]
    rfl
  | cons c pre' ih =>
    rw [List.cons_append, regexIsMatchF, ih, Bool.or_true]

/-- The captures returned by Regex::captures come from a match inside
the string. -/
theorem regexCapturesF_sound {s : List Char} {caps : FloatCaps}
    (h : regexCapturesF s = some caps) :
    ∃ pre chunk post, s = pre ++ (chunk ++ post) ∧ GrammarChunk chunk caps := by
  induction s with
  | nil =>
    rw [show regexCapturesF [] = none from rfl] at h
    cases h
  | cons c t ih =>
    rw [regexCapturesF] at h
    split at h
    · rename_i p hm
      obtain ⟨caps', rest⟩ := p
      injection h with h'
      subst h'
      obtain ⟨chunk, heq, hg⟩ := matchAtF_sound hm
      exact ⟨[], chunk, rest, by simp [heq], hg⟩
    · obtain ⟨pre, chunk, post, heq, hg⟩ := ih h
      exact ⟨c :: pre, chunk, post, by simp [heq], hg⟩

/-- Dropping a prefix by a predicate that fails at a marked character
can never remove the marked character or anything after it. -/
theorem dropWhile_keeps {p : Char → Bool} {k : Char} (hk : p k = false)
    (pre t post : List Char) :
    ∃ pre1, (pre ++ ((k :: t) ++ post)).dropWhile p = pre1 ++ ((k :: t) ++ post) := by
  induction pre with
  | nil =>
    refine ⟨[], ?_⟩
    simp [List.dropWhile_cons, hk]
  | cons c pre' ih =>
    rw [List.cons_append, List.dropWhile_cons]
    by_cases hc : p c = true
    · simpa [hc] using ih
    · rw [Bool.not_eq_true] at hc
      exact ⟨c :: (pre' ++ []), by simp [hc]⟩

/-- Trimming white space from both ends keeps every grammar chunk
intact, because a chunk neither starts nor ends with white space. -/
theorem trim_keeps_chunk {s pre chunk post : List Char} {caps : FloatCaps}
    (heq : s = pre ++ (chunk ++ post)) (hg : GrammarChunk chunk caps) :
    ∃ pre2 post2, rustTrim s = pre2 ++ (chunk ++ post2) := by
  obtain ⟨k, t, hck, hkws⟩ := GrammarChunk_head hg
  obtain ⟨init, hlast⟩ := GrammarChunk_last hg
  subst heq
  subst hck
  obtain ⟨pre1, hu⟩ := dropWhile_keeps hkws pre t post
  unfold rustTrim
  rw [hu]
  have hrev : (pre1 ++ ((k :: t) ++ post)).reverse =
      post.reverse ++ ((')' :: init.reverse) ++ pre1.reverse) := by
    rw [hlast]
    simp [List.reverse_append]
  rw [hrev]
  have hpws : isWsChar ')' = false := by decide
  obtain ⟨q1, hq⟩ := dropWhile_keeps hpws post.reverse init.reverse pre1.reverse
  rw [hq]
  refine ⟨pre1, q1.reverse, ?_⟩
  rw [hlast]
  simp [List.reverse_append]

/-- Counterexample for C7: a string whose whole trimmed text does not
conform to the grammar (it is wrapped in stray x characters) is
nevertheless accepted by matches, because the regex is unanchored and
finds the conforming substring. -/
theorem c7_counterexample_substring_match :
    RGBFloatFormat.matches ("xrgb(0.0,0.0,0.0)x".toList) = true ∧
    ¬ ∃ caps, GrammarChunk (rustTrim ("xrgb(0.0,0.0,0.0)x".toList)) caps := by
  constructor
  · decide
  · rintro ⟨caps, hg⟩
    have hm := matchAtF_complete hg []
    rw [List.append_nil] at hm
    rw [show matchAtF (rustTrim ("xrgb(0.0,0.0,0.0)x".toList)) = none from rfl] at hm
    cases hm

/-- C7 (amended): matches is true exactly when some substring of the
trimmed text conforms to the float-notation grammar (whose digit class
is every Unicode decimal digit, an Arabic-Indic fractional digit
included), and the five example strings behave as the spec states. -/
theorem c7_matches_iff_substring :
    (∀ s : List Char, RGBFloatFormat.matches s = true ↔
      ∃ pre chunk post caps, rustTrim s = pre ++ (chunk ++ post) ∧
        GrammarChunk chunk caps) ∧
    RGBFloatFormat.matches ("rgb(0.٥,0.0,0.0)".toList) = true ∧
    RGBFloatFormat.matches ("rgb(0.5, 1.0, 0.25)".toList) = true ∧
    RGBFloatFormat.matches ("RGBA(0.0,0.0,0.0)".toList) = true ∧
    RGBFloatFormat.matches (" rgb( 0.5 , 1.0 ,0.25 ) ".toList) = true ∧
    RGBFloatFormat.matches ("rgb(0,0,0)".toList) = false ∧
    RGBFloatFormat.matches ("rgba(-1.0,1.0,0.0)".toList) = false := by
  refine ⟨?_, by decide, by decide, by decide, by decide, by decide, by decide⟩
  intro s
  unfold RGBFloatFormat.matches
  constructor
  · exact regexIsMatchF_decomp
  · rintro ⟨pre, chunk, post, caps, heq, hg⟩
    rw [heq]
    exact regexIsMatchF_of_decomp hg

/-- C10: a successful parse implies a successful match, even though
parse runs the regex on the untrimmed string while matches trims it
first: the matched chunk starts and ends with non-white-space, so
trimming never cuts into it. -/
theorem c10_parse_implies_matches :
    ∀ (s : List Char) (c : Canonical),
      RGBFloatFormat.parse s = .ok c → RGBFloatFormat.matches s = true := by
  intro s c h
  unfold RGBFloatFormat.parse at h
  split at h
  · cases h
  · rename_i caps hcap
    obtain ⟨pre, chunk, post, heq, hg⟩ := regexCapturesF_sound hcap
    obtain ⟨pre2, post2, htrim⟩ := trim_keeps_chunk heq hg
    unfold RGBFloatFormat.matches
    rw [htrim]
    exact regexIsMatchF_of_decomp hg

/-- A component whose parsed value lies in the unit interval extracts
successfully. -/
theorem extract_ok {cap : List Char} {q : ℚ} (hpd : parseDecimal cap = some q)
    (h0 : 0 ≤ q) (h1 : q ≤ 1) :
    extract_float_in_range (some cap) = .ok q := by
  simp only [extract_float_in_range, hpd]
  rw [if_pos ⟨h0, h1⟩]

/-- A component whose parsed value leaves the unit interval extracts to
the range-validation error carrying that value. -/
theorem extract_range_err {cap : List Char} {q : ℚ} (hpd : parseDecimal cap = some q)
    (h : ¬(0 ≤ q ∧ q ≤ 1)) :
    extract_float_in_range (some cap) = .error ⟨.RGBf, .range q⟩ := by
  simp only [extract_float_in_range, hpd]
  rw [if_neg h]

/-- rne agrees with the floor when the fractional part stays below one
half. -/
theorem rne_eq_floor {x : ℚ} {n : ℤ} (h1 : (n : ℚ) ≤ x) (h2 : x < (n : ℚ) + 1/2) :
    rne x = n := by
  have hf : ⌊x⌋ = n := Int.floor_eq_iff.mpr ⟨h1, by linarith⟩
  unfold rne
  rw [hf, if_pos (by linarith)]

/-- The binary logarithm of a positive rational bracketed between two
consecutive powers of two. -/
theorem log2_eq {q : ℚ} {e : ℤ} (hq : 0 < q) (h1 : ((2 : ℕ) : ℚ) ^ e ≤ q)
    (h2 : q < ((2 : ℕ) : ℚ) ^ (e + 1)) : Int.log 2 q = e := by
  have ha := (Int.zpow_le_iff_le_log (by norm_num) hq).mp h1
  have hb := (Int.lt_zpow_iff_log_lt (by norm_num) hq).mp h2
  omega

/-- Zero is a representable f32. -/
theorem fl_zero : fl 0 = 0 := by
  unfold fl
  rw [if_pos le_rfl]

/-- Evaluation of fl in a known normal binade: for 2 to the e at most q
below 2 to the e+1 with e above the subnormal cutoff, fl scales q into
the 24-bit significand range, rounds to nearest, and scales back. -/
theorem fl_eval {q : ℚ} {e : ℤ} (hq : 0 < q) (h1 : ((2 : ℕ) : ℚ) ^ e ≤ q)
    (h2 : q < ((2 : ℕ) : ℚ) ^ (e + 1)) (he : -126 ≤ e) {n : ℤ}
    (hn : rne (q * 2 ^ (23 - e)) = n) : fl q = (n : ℚ) * 2 ^ (e - 23) := by
  unfold fl
  rw [if_neg (not_le.mpr hq), log2_eq hq h1 h2]
  have hk : max (e - 23) (-149 : ℤ) = e - 23 := by omega
  rw [hk, show -(e - 23) = 23 - e by ring, hn]

/-- One is a representable f32: fl fixes it. -/
theorem fl_one : fl 1 = 1 := by
  have hn : rne ((1 : ℚ) * 2 ^ ((23 : ℤ) - 0)) = 8388608 := by
    rw [show ((23 : ℤ) - 0) = ((23 : ℕ) : ℤ) by norm_num, zpow_natCast]
    exact rne_eq_floor (by norm_num) (by norm_num)
  have h := fl_eval (by norm_num) (by norm_num) (by norm_num) (by norm_num) hn
  rw [h, show ((0 : ℤ) - 23) = -((23 : ℕ) : ℤ) by norm_num, zpow_neg, zpow_natCast]
  norm_num

/-- Three halves is a representable f32: fl fixes it. -/
theorem fl_three_halves : fl ((3 : ℚ) / 2) = (3 : ℚ) / 2 := by
  have hn : rne ((3 : ℚ) / 2 * 2 ^ ((23 : ℤ) - 0)) = 12582912 := by
    rw [show ((23 : ℤ) - 0) = ((23 : ℕ) : ℤ) by norm_num, zpow_natCast]
    exact rne_eq_floor (by norm_num) (by norm_num)
  have h := fl_eval (by norm_num) (by norm_num) (by norm_num) (by norm_num) hn
  rw [h, show ((0 : ℤ) - 23) = -((23 : ℕ) : ℤ) by norm_num, zpow_neg, zpow_natCast]
  norm_num

/-- The decimal value 1.00000001 rounds to the f32 1.0: scaled into the
binade of 2 to the 23 it lands less than a tenth of a unit above the
integer 8388608, far below the rounding midpoint. -/
theorem fl_one_eps : fl (1 + 1 / 10 ^ 8 : ℚ) = 1 := by
  have hn : rne ((1 + 1 / 10 ^ 8 : ℚ) * 2 ^ ((23 : ℤ) - 0)) = 8388608 := by
    rw [show ((23 : ℤ) - 0) = ((23 : ℕ) : ℤ) by norm_num, zpow_natCast]
    exact rne_eq_floor (by norm_num) (by norm_num)
  have h := fl_eval (by norm_num) (by norm_num) (by norm_num) (by norm_num) hn
  rw [h, show ((0 : ℤ) - 23) = -((23 : ℕ) : ℤ) by norm_num, zpow_neg, zpow_natCast]
  norm_num

/-- The capture 0.0 parses to the f32 zero. -/
theorem parseDecimal_00 : parseDecimal ("0.0".toList) = some 0 := by
  rw [show parseDecimal ("0.0".toList) =
    some (fl (((0 : ℕ) : ℚ) + ((0 : ℕ) : ℚ) / (10 : ℚ) ^ (1 : ℕ))) from rfl]
  rw [show (((0 : ℕ) : ℚ) + ((0 : ℕ) : ℚ) / (10 : ℚ) ^ (1 : ℕ)) = 0 by norm_num]
  rw [fl_zero]

/-- The capture 1.0 parses to the f32 one. -/
theorem parseDecimal_10 : parseDecimal ("1.0".toList) = some 1 := by
  rw [show parseDecimal ("1.0".toList) =
    some (fl (((1 : ℕ) : ℚ) + ((0 : ℕ) : ℚ) / (10 : ℚ) ^ (1 : ℕ))) from rfl]
  rw [show (((1 : ℕ) : ℚ) + ((0 : ℕ) : ℚ) / (10 : ℚ) ^ (1 : ℕ)) = 1 by norm_num]
  rw [fl_one]

/-- The capture 1.5 parses to the f32 three halves. -/
theorem parseDecimal_15 : parseDecimal ("1.5".toList) = some ((3 : ℚ) / 2) := by
  rw [show parseDecimal ("1.5".toList) =
    some (fl (((1 : ℕ) : ℚ) + ((5 : ℕ) : ℚ) / (10 : ℚ) ^ (1 : ℕ))) from rfl]
  rw [show (((1 : ℕ) : ℚ) + ((5 : ℕ) : ℚ) / (10 : ℚ) ^ (1 : ℕ)) = (3 : ℚ) / 2 by norm_num]
  rw [fl_three_halves]

/-- The capture 1.00000001 parses to the f32 one exactly. -/
theorem parseDecimal_1eps : parseDecimal ("1.00000001".toList) = some 1 := by
  rw [show parseDecimal ("1.00000001".toList) =
    some (fl (((1 : ℕ) : ℚ) + ((1 : ℕ) : ℚ) / (10 : ℚ) ^ (8 : ℕ))) from rfl]
  rw [show (((1 : ℕ) : ℚ) + ((1 : ℕ) : ℚ) / (10 : ℚ) ^ (8 : ℕ)) =
    (1 + 1 / 10 ^ 8 : ℚ) by norm_num]
  rw [fl_one_eps]

/-- Witness for C10: the implication applied to the all-zero default
alpha example. -/
theorem c10_parse_implies_matches_witness :
    RGBFloatFormat.matches ("rgb(0.0, 0.0, 0.0)".toList) = true := by
  have hcap : regexCapturesF ("rgb(0.0, 0.0, 0.0)".toList) =
      some ⟨"0.0".toList, "0.0".toList, "0.0".toList, none⟩ := rfl
  have hex : extract_float_in_range (some ("0.0".toList)) = .ok 0 :=
    extract_ok parseDecimal_00 le_rfl zero_le_one
  have hparse : RGBFloatFormat.parse ("rgb(0.0, 0.0, 0.0)".toList) =
      .ok (Canonical.from_f 0 0 0 1) := by
    simp only [RGBFloatFormat.parse, hcap, hex]
  exact c10_parse_implies_matches ("rgb(0.0, 0.0, 0.0)".toList) _ hparse

/-- Counterexample for C8: str::parse of f32 rounds to the nearest
representable value, so the component text 1.00000001, whose exact
decimal value exceeds 1, parses to the f32 1.0 exactly and parse
succeeds, instead of failing with the range-validation error the claim
asserts for every component that "parses outside" the unit range. -/
theorem c8_counterexample_f32_rounding :
    RGBFloatFormat.matches ("rgb(1.00000001, 0.0, 0.0)".toList) = true ∧
    (1 : ℚ) < 1 + 1 / 10 ^ 8 ∧
    parseDecimal ("1.00000001".toList) = some 1 ∧
    RGBFloatFormat.parse ("rgb(1.00000001, 0.0, 0.0)".toList) =
      .ok (Canonical.from_f 1 0 0 1) := by
  refine ⟨by decide, by norm_num, parseDecimal_1eps, ?_⟩
  have hcap : regexCapturesF ("rgb(1.00000001, 0.0, 0.0)".toList) =
      some ⟨"1.00000001".toList, "0.0".toList, "0.0".toList, none⟩ := rfl
  simp only [RGBFloatFormat.parse, hcap,
    extract_ok parseDecimal_1eps zero_le_one le_rfl,
    extract_ok parseDecimal_00 le_rfl zero_le_one]

/-- C8 (amended): parse validates each component against the inclusive
unit range after rounding to the nearest f32: an f32-parsed component
value outside the range makes parse fail with the range-validation
error carrying the first such value (the optional alpha included),
in-range values extract successfully with the endpoints 0.0 and 1.0
accepted, the spec's out-of-range example fails with the range error on
its first component 1.5, and a component whose text f32 parsing refuses
(such as one written with a non-ASCII digit) gives the float-parse
error rather than the range error. -/
theorem c8_float_range_validation :
    (∀ (s : List Char) (caps : FloatCaps) (qr qg qb : ℚ),
      regexCapturesF s = some caps →
      parseDecimal caps.r = some qr → parseDecimal caps.g = some qg →
      parseDecimal caps.b = some qb →
      (¬(0 ≤ qr ∧ qr ≤ 1) ∨ ¬(0 ≤ qg ∧ qg ≤ 1) ∨ ¬(0 ≤ qb ∧ qb ≤ 1)) →
      ∃ q2, RGBFloatFormat.parse s = .error ⟨.RGBf, .range q2⟩ ∧ ¬(0 ≤ q2 ∧ q2 ≤ 1)) ∧
    (∀ (s : List Char) (caps : FloatCaps) (qr qg qb : ℚ) (acap : List Char) (qa : ℚ),
      regexCapturesF s = some caps →
      parseDecimal caps.r = some qr → 0 ≤ qr → qr ≤ 1 →
      parseDecimal caps.g = some qg → 0 ≤ qg → qg ≤ 1 →
      parseDecimal caps.b = some qb → 0 ≤ qb → qb ≤ 1 →
      caps.a = some acap → parseDecimal acap = some qa → ¬(0 ≤ qa ∧ qa ≤ 1) →
      RGBFloatFormat.parse s = .error ⟨.RGBf, .range qa⟩) ∧
    (∀ (cap : List Char) (q : ℚ), parseDecimal cap = some q → 0 ≤ q → q ≤ 1 →
      extract_float_in_range (some cap) = .ok q) ∧
    (∀ cap : List Char, parseDecimal cap = none →
      extract_float_in_range (some cap) = .error ⟨.RGBf, .floatParse cap⟩) ∧
    RGBFloatFormat.parse ("rgb(1.5, 0.91, 1.99999)".toList) =
      .error ⟨.RGBf, .range ((3 : ℚ) / 2)⟩ ∧
    RGBFloatFormat.matches ("rgb(1.5, 0.91, 1.99999)".toList) = true ∧
    extract_float_in_range (some ("0.0".toList)) = .ok 0 ∧
    extract_float_in_range (some ("1.0".toList)) = .ok 1 ∧
    parseDecimal ("0.٥".toList) = none ∧
    RGBFloatFormat.parse ("rgb(0.٥,0.0,0.0)".toList) =
      .error ⟨.RGBf, .floatParse ("0.٥".toList)⟩ := by
  refine ⟨?_, ?_, fun cap q h h0 h1 => extract_ok h h0 h1,
    fun cap h => by simp only [extract_float_in_range, h], ?_, by decide,
    extract_ok parseDecimal_00 le_rfl zero_le_one,
    extract_ok parseDecimal_10 zero_le_one le_rfl, rfl, ?_⟩
  · intro s caps qr qg qb hcap hqr hqg hqb hout
    by_cases hrin : 0 ≤ qr ∧ qr ≤ 1
    case neg =>
      refine ⟨qr, ?_, hrin⟩
      simp only [RGBFloatFormat.parse, hcap, extract_range_err hqr hrin]
    case pos =>
      by_cases hgin : 0 ≤ qg ∧ qg ≤ 1
      case neg =>
        refine ⟨qg, ?_, hgin⟩
        simp only [RGBFloatFormat.parse, hcap, extract_ok hqr hrin.1 hrin.2,
          extract_range_err hqg hgin]
      case pos =>
        by_cases hbin : 0 ≤ qb ∧ qb ≤ 1
        case neg =>
          refine ⟨qb, ?_, hbin⟩
          simp only [RGBFloatFormat.parse, hcap, extract_ok hqr hrin.1 hrin.2,
            extract_ok hqg hgin.1 hgin.2, extract_range_err hqb hbin]
        case pos =>
          rcases hout with h | h | h
          exacts [absurd hrin h, absurd hgin h, absurd hbin h]
  · intro s caps qr qg qb acap qa hcap hqr hr0 hr1 hqg hg0 hg1 hqb hb0 hb1 ha hqa hain
    simp only [RGBFloatFormat.parse, hcap, extract_ok hqr hr0 hr1,
      extract_ok hqg hg0 hg1, extract_ok hqb hb0 hb1, ha,
      extract_range_err hqa hain]
  · have hcap : regexCapturesF ("rgb(1.5, 0.91, 1.99999)".toList) =
        some ⟨"1.5".toList, "0.91".toList, "1.99999".toList, none⟩ := rfl
    have herr : extract_float_in_range (some ("1.5".toList)) =
        .error ⟨.RGBf, .range ((3 : ℚ) / 2)⟩ :=
      extract_range_err parseDecimal_15 (by norm_num)
    simp only [RGBFloatFormat.parse, hcap, herr]
  · have hcap : regexCapturesF ("rgb(0.٥,0.0,0.0)".toList) =
        some ⟨"0.٥".toList, "0.0".toList, "0.0".toList, none⟩ := rfl
    have hpd : parseDecimal ("0.٥".toList) = none := rfl
    have hfp : extract_float_in_range (some ("0.٥".toList)) =
        .error ⟨.RGBf, .floatParse ("0.٥".toList)⟩ := by
      simp only [extract_float_in_range, hpd]
    simp only [RGBFloatFormat.parse, hcap, hfp]

/-- Witness for C8: the range-validation clause applied to an input
whose first component parses to three halves, outside the unit range. -/
theorem c8_float_range_validation_witness :
    ∃ q2, RGBFloatFormat.parse ("rgb(1.5, 0.0, 0.0)".toList) =
      .error ⟨.RGBf, .range q2⟩ ∧ ¬(0 ≤ q2 ∧ q2 ≤ 1) :=
  c8_float_range_validation.1 ("rgb(1.5, 0.0, 0.0)".toList)
    ⟨"1.5".toList, "0.0".toList, "0.0".toList, none⟩ ((3 : ℚ) / 2) 0 0 rfl
    parseDecimal_15 parseDecimal_00 parseDecimal_00 (Or.inl (by norm_num))

/-- C9 (from_f modelled from the spec): a successful parse returns
Canonical::from_f applied to the parsed floats, an omitted alpha
defaults to 1.0, the spec-modelled scaling maps 0.0 to 0 and 1.0 to
255, and the all-zero example parses to a color with alpha 255. -/
theorem c9_parse_from_f_default_alpha :
    (∀ (s : List Char) (caps : FloatCaps) (rv gv bv : ℚ),
      regexCapturesF s = some caps → caps.a = none →
      parseDecimal caps.r = some rv → 0 ≤ rv → rv ≤ 1 →
      parseDecimal caps.g = some gv → 0 ≤ gv → gv ≤ 1 →
      parseDecimal caps.b = some bv → 0 ≤ bv → bv ≤ 1 →
      RGBFloatFormat.parse s = .ok (Canonical.from_f rv gv bv 1)) ∧
    scale_f 0 = 0 ∧ scale_f 1 = 255 ∧
    Canonical.from_f 0 0 0 1 = ⟨0, 0, 0, 255⟩ ∧
    RGBFloatFormat.parse ("rgb(0.0, 0.0, 0.0)".toList) = .ok ⟨0, 0, 0, 255⟩ := by
  have hs0 : scale_f 0 = 0 := by
    unfold scale_f
    have h : round ((0 : ℚ) * 255) = ((0 : ℕ) : ℤ) := by norm_num
    rw [h, Int.toNat_natCast]
  have hs1 : scale_f 1 = 255 := by
    unfold scale_f
    have h : round ((1 : ℚ) * 255) = ((255 : ℕ) : ℤ) := by norm_num
    rw [h, Int.toNat_natCast]
  refine ⟨?_, hs0, hs1, ?_, ?_⟩
  · intro s caps rv gv bv hcap ha hr hr0 hr1 hgp hg0 hg1 hb hb0 hb1
    simp only [RGBFloatFormat.parse, hcap, extract_ok hr hr0 hr1,
      extract_ok hgp hg0 hg1, extract_ok hb hb0 hb1, ha]
  · unfold Canonical.from_f
    rw [hs0, hs1]
  · have hcap : regexCapturesF ("rgb(0.0, 0.0, 0.0)".toList) =
        some ⟨"0.0".toList, "0.0".toList, "0.0".toList, none⟩ := rfl
    have hex : extract_float_in_range (some ("0.0".toList)) = .ok 0 :=
      extract_ok parseDecimal_00 le_rfl zero_le_one
    simp only [RGBFloatFormat.parse, hcap, hex]
    unfold Canonical.from_f
    rw [hs0, hs1]

/-- Witness for C9: the general from_f clause applied to the all-zero
example with its literal captures. -/
theorem c9_parse_from_f_default_alpha_witness :
    RGBFloatFormat.parse ("rgb(0.0, 0.0, 0.0)".toList) =
      .ok (Canonical.from_f 0 0 0 1) :=
  c9_parse_from_f_default_alpha.1 ("rgb(0.0, 0.0, 0.0)".toList)
    ⟨"0.0".toList, "0.0".toList, "0.0".toList, none⟩ 0 0 0 rfl rfl
    parseDecimal_00 le_rfl zero_le_one
    parseDecimal_00 le_rfl zero_le_one
    parseDecimal_00 le_rfl zero_le_one
